import Mathlib

/-!
Shallow embedding of `src/scripting.cpp` (namespace Scripting of the sqt
repository): script path resolution, version-gated script partitioning,
macro expansion, script-cache refresh, and the dual-mode `execute`
dispatcher with its result conductor.  All definitions below are
translated from the C++ source; theorems settle the frozen claims.
-/

namespace SqtScripting

/-! ## Version partitioner (`versionSpecificPart`, scripting.cpp:110-147)

The C++ scans the script with the pure-lookahead regular expression
`(?=\/\*\s*V(\d+)\+\s*\*\/)`.  Every match is zero-width, so for each
marker position `p` both `capturedStart(0)` and `capturedEnd(0)` equal
`p`, while capture group 1 holds the digits of the version key.  We model
the scan directly on the character list. -/

/-- PCRE's default `\s` class (ASCII whitespace), as used by
`QRegularExpression` without the Unicode option. -/
def qtIsSpace (c : Char) : Bool :=
  c = ' ' ∨ c = '\t' ∨ c = '\n' ∨ c = '\r' ∨ c = '\x0b' ∨ c = '\x0c'

/-- ASCII lowercasing (`QString::toLower` restricted to the ASCII names
appearing here), written structurally on the character list. -/
def qtLower (s : String) : String :=
  String.mk (s.data.map Char.toLower)

/-- Decimal value of a digit run, as `QString::toInt` produces for the
small version keys occurring in scripts. -/
def digitsToNat (ds : List Char) : Nat :=
  ds.foldl (fun a c => a * 10 + (c.toNat - '0'.toNat)) 0

/-- Does the marker `\/\*\s*V(\d+)\+\s*\*\/` match at the head of `cs`?
Returns the captured version key.  The `\s*` and `\d+` pieces are
deterministic here because the characters that follow them (`V`, `+`)
are outside the repeated classes. -/
def markerAt (cs : List Char) : Option Nat :=
  match cs with
  | '/' :: '*' :: rest =>
    match rest.dropWhile qtIsSpace with
    | 'V' :: r2 =>
      let ds := r2.takeWhile Char.isDigit
      let r3 := r2.dropWhile Char.isDigit
      if ds = [] then none
      else
        match r3 with
        | '+' :: r4 =>
          match r4.dropWhile qtIsSpace with
          | '*' :: '/' :: _ => some (digitsToNat ds)
          | _ => none
        | _ => none
    | _ => none
  | _ => none

/-- All positions where the lookahead succeeds, with the captured key:
the global match of a zero-width pattern visits every offset once. -/
def markersFrom : List Char → Nat → List (Nat × Nat)
  | [], _ => []
  | c :: rest, i =>
    match markerAt (c :: rest) with
    | some k => (i, k) :: markersFrom rest (i + 1)
    | none => markersFrom rest (i + 1)

/-- Segment texts: `script.mid(match.capturedEnd(), next.capturedStart()
- match.capturedEnd())`.  With a zero-width match, `capturedEnd` is the
marker's own start, so each segment runs from the start of its marker to
the start of the next (or to the end of the text). -/
def segmentsOf (s : List Char) : List (Nat × Nat) → List (Nat × String)
  | [] => []
  | (p, k) :: rest =>
    let v :=
      match rest with
      | (q, _) :: _ => (s.drop p).take (q - p)
      | [] => s.drop p
    (k, String.mk v) :: segmentsOf s rest

/-- `QMap<int, QString>` insertion (`parts[key] = value`): keeps the map
sorted by key, overwriting an existing key. -/
def insertPart : List (Nat × String) → Nat → String → List (Nat × String)
  | [], k, v => [(k, v)]
  | (k', v') :: rest, k, v =>
    if k < k' then (k, v) :: (k', v') :: rest
    else if k = k' then (k, v) :: rest
    else (k', v') :: insertPart rest k v

/-- Accumulate all segments into the `QMap` (scripting.cpp:119-135). -/
def buildParts (segs : List (Nat × String)) : List (Nat × String) :=
  segs.foldl (fun m kv => insertPart m kv.1 kv.2) []

/-- The selection loop (scripting.cpp:138-146): walk the map from the
highest key down, return the first value whose key is ≤ `version`,
else the empty string. -/
def selectHighest (parts : List (Nat × String)) (version : Int) : String :=
  match parts.reverse.find? (fun kv => decide ((kv.1 : Int) ≤ version)) with
  | some kv => kv.2
  | none => ""

/-- `versionSpecificPart` (scripting.cpp:110-147): whole script when no
marker matches, otherwise the selected segment. -/
def versionSpecificPart (script : String) (version : Int) : String :=
  match markersFrom script.data 0 with
  | [] => script
  | ms => selectHighest (buildParts (segmentsOf script.data ms)) version

example : markersFrom ("/* V100+ */A".data) 0 = [(0, 100)] := by decide

example :
    versionSpecificPart "/* V100+ */A/* V200+ */B/* V300+ */C" 250 =
      "/* V200+ */B" := by decide

/-! ## Macro expansion (`execute`, scripting.cpp:205-221)

The regex `\$(\w+\.\w+)\$` is scanned globally; each distinct captured
name is collected once (in first-occurrence order) into `macros`, then
each macro is resolved once via `envCallback` and every occurrence of
`$name$` is textually replaced, with `NULL` substituted when the
resolved value is empty. -/

/-- PCRE's default `\w` class (ASCII word character). -/
def isWordChar (c : Char) : Bool := c.isAlphanum ∨ c = '_'

/-- Does `\$(\w+\.\w+)\$` match at the head of `cs`?  Returns the
captured name and the remainder after the closing dollar.  `\w+` is
deterministic since `.` and `$` are not word characters. -/
def matchMacroAt (cs : List Char) : Option (List Char × List Char) :=
  match cs with
  | '$' :: rest =>
    let w1 := rest.takeWhile isWordChar
    let r1 := rest.dropWhile isWordChar
    if w1 = [] then none
    else
      match r1 with
      | '.' :: r2 =>
        let w2 := r2.takeWhile isWordChar
        let r3 := r2.dropWhile isWordChar
        if w2 = [] then none
        else
          match r3 with
          | '$' :: r4 => some (w1 ++ '.' :: w2, r4)
          | _ => none
      | _ => none
  | _ => none

/-- All captured macro names in match order (leftmost, non-overlapping;
scanning resumes after each match).  The fuel argument bounds the scan
by the text length; every step consumes at least one character, so
`scanMacros` below never exhausts it. -/
def scanMacrosAux : Nat → List Char → List String
  | 0, _ => []
  | _ + 1, [] => []
  | fuel + 1, c :: rest =>
    match matchMacroAt (c :: rest) with
    | some (name, r) => String.mk name :: scanMacrosAux fuel r
    | none => scanMacrosAux fuel rest

def scanMacros (s : List Char) : List String :=
  scanMacrosAux s.length s

/-- The `if (!macros.contains(...)) macros << ...` accumulation. -/
def addDistinct (acc : List String) (m : String) : List String :=
  if m ∈ acc then acc else acc ++ [m]

/-- The distinct macro names of a text, in first-occurrence order
(scripting.cpp:208-215). -/
def collectMacros (s : String) : List String :=
  (scanMacros s.data).foldl addDistinct []

/-- `QString::replace(before, after)`: replace every occurrence of
`pat`, left to right, resuming the scan after the inserted replacement.
Fuel bounds the scan by the subject length (each step consumes at least
one character when `pat` is non-empty, as all patterns here are). -/
def replaceAll : Nat → List Char → List Char → List Char → List Char
  | 0, s, _, _ => s
  | fuel + 1, s, pat, rep =>
    if pat.isPrefixOf s then rep ++ replaceAll fuel (s.drop pat.length) pat rep
    else
      match s with
      | [] => []
      | c :: rest => c :: replaceAll fuel rest pat rep

def qtReplace (s pat rep : String) : String :=
  String.mk (replaceAll s.data.length s.data pat.data rep.data)

/-- One iteration of the replacement loop (scripting.cpp:217-221): call
`envCallback` on the macro, replace every occurrence of `$name$` with
the value — or with the literal `NULL` when the value is empty — and
record the call. -/
def expandStep (resolver : String → String) (qc : String × List String)
    (m : String) : String × List String :=
  let value := resolver m
  (qtReplace qc.1 ("$" ++ m ++ "$") (if value = "" then "NULL" else value),
   qc.2 ++ [m])

/-- The replacement loop (scripting.cpp:217-221), additionally
recording the sequence of `envCallback` invocations it performs. -/
def expandMacrosWithCalls (s : String) (resolver : String → String) :
    String × List String :=
  (collectMacros s).foldl (expandStep resolver) (s, [])

/-- Macro-expanded text, as used for both SQL and QS scripts. -/
def expandMacros (s : String) (resolver : String → String) : String :=
  (expandMacrosWithCalls s resolver).1

example :
    collectMacros "select * from t where x=$a.b$ and y=$a.b$" = ["a.b"] := by
  decide

example :
    expandMacros "select * from t where x=$a.b$ and y=$a.b$" (fun _ => "") =
      "select * from t where x=NULL and y=NULL" := by decide

/-! ## Data model: scripts, tables, the conductor -/

inductive ScriptType where
  | SQL
  | QS
deriving DecidableEq, Repr

/-- `Scripting::Script` (scripting.h): version-resolved body plus kind. -/
structure Script where
  body : String
  type : ScriptType
deriving DecidableEq, Repr

/-- A `DataTable` as observed by the classification loop: shape, column
names, and cell texts (`value(r,c).toString()`). -/
structure DataTable where
  rowCount : Nat
  columnCount : Nat
  columnNames : List String
  values : List (List String)
deriving DecidableEq, Repr

/-- `t->getColumn(0).name()`. -/
def colName0 (t : DataTable) : String := t.columnNames.getD 0 ""

/-- `t->value(0, 0).toString()`. -/
def cell00 (t : DataTable) : String := (t.values.getD 0 []).getD 0 ""

/-- `CppConductor`'s owned state: tables (`resultsets`), generated
sub-scripts (`scripts`) and HTML fragments (`html`). -/
structure CppConductor where
  resultsets : List DataTable
  scripts : List String
  html : List String
deriving DecidableEq, Repr

def emptyConductor : CppConductor := ⟨[], [], []⟩

/-- One append call on the conductor (`appendTable` / `appendScript` /
`appendHtml`, scripting.cpp:306-320). -/
inductive ConductorOp where
  | appendTable (t : DataTable)
  | appendScript (s : String)
  | appendHtml (h : String)
deriving DecidableEq, Repr

def applyOp (c : CppConductor) : ConductorOp → CppConductor
  | .appendTable t => { c with resultsets := c.resultsets ++ [t] }
  | .appendScript s => { c with scripts := c.scripts ++ [s] }
  | .appendHtml h => { c with html := c.html ++ [h] }

def runOps (c : CppConductor) (ops : List ConductorOp) : CppConductor :=
  ops.foldl applyOp c

/-! ## SQL result classification (`execute`, scripting.cpp:226-251)

The loop runs `for (i = _resultsets.size()-1; i >= 0; --i)`, removing
and classifying the last element each time — i.e. it folds over the
reversed production order. -/

/-- Classification of one result set (loop body, scripting.cpp:230-250). -/
def classifyOne (env : CppConductor) (t : DataTable) : CppConductor :=
  if t.rowCount = 1 ∧ t.columnCount = 1 then
    if colName0 t = "script" then applyOp env (.appendScript (cell00 t))
    else if colName0 t = "html" then applyOp env (.appendHtml (cell00 t))
    else applyOp env (.appendTable t)
  else applyOp env (.appendTable t)

/-- The whole loop: the result sets are visited from last to first. -/
def classifyAll (env : CppConductor) (ts : List DataTable) : CppConductor :=
  ts.reverse.foldl classifyOne env

/-- Sorts a result set into the branch the loop takes: kept as a table. -/
def tableKind (t : DataTable) : Bool :=
  decide (¬(t.rowCount = 1 ∧ t.columnCount = 1 ∧
    (colName0 t = "script" ∨ colName0 t = "html")))

/-- 1x1 result whose single column is named `script`. -/
def scriptClassified (t : DataTable) : Bool :=
  decide (t.rowCount = 1 ∧ t.columnCount = 1 ∧ colName0 t = "script")

/-- 1x1 result whose single column is named `html`. -/
def htmlClassified (t : DataTable) : Bool :=
  decide (t.rowCount = 1 ∧ t.columnCount = 1 ∧ colName0 t = "html")

/-! ## Script cache refresh (`refresh`, scripting.cpp:149-181)

The global `_scripts[path]` bunch is cleared, then each `*.sql` / `*.qs`
file is read and inserted.  An unreadable file throws immediately: the
entries inserted so far stay in the global bunch (the reference `bunch`
points into `_scripts`), and the thrown message names `files.at(0)` —
the first listed file, not the failing one. -/

/-- One file as seen by the refresh loop (`QFileInfo` + readability). -/
structure ScriptFile where
  baseName : String
  suffix : String
  filePath : String
  /-- `some text` when `QFile::open` succeeds, `none` when it fails. -/
  content : Option String
deriving DecidableEq, Repr

/-- `QHash::insert`: overwrite any entry with the same key. -/
def insertBunch (b : List (String × Script)) (k : String) (v : Script) :
    List (String × Script) :=
  b.filter (fun p => decide (p.1 ≠ k)) ++ [(k, v)]

/-- Outcome of a refresh: either the completed bunch, or the message of
the thrown error together with the bunch contents left behind in the
global `_scripts` cache at the moment of the throw. -/
inductive RefreshOutcome where
  | ok (bunch : List (String × Script))
  | failure (bunchAtThrow : List (String × Script)) (msg : String)
deriving DecidableEq, Repr

/-- The version passed to `versionSpecificPart`: the root context uses
the sentinel `-1` instead of `dbmsComparableVersion()`
(scripting.cpp:176). -/
def refreshLoop (version : Int) (firstFilePath : String) :
    List ScriptFile → List (String × Script) → RefreshOutcome
  | [], bunch => .ok bunch
  | f :: rest, bunch =>
    let suffix := qtLower f.suffix
    if suffix ≠ "sql" ∧ suffix ≠ "qs" then
      refreshLoop version firstFilePath rest bunch
    else
      match f.content with
      | none => .failure bunch ("can't open " ++ firstFilePath)
      | some text =>
        refreshLoop version firstFilePath rest
          (insertBunch bunch f.baseName
            ⟨versionSpecificPart text version,
             if suffix = "sql" then .SQL else .QS⟩)

/-- `refresh` for an already-resolved directory listing: the bunch is
cleared first (starts empty), then the loop runs. -/
def refresh (files : List ScriptFile) (version : Int) : RefreshOutcome :=
  refreshLoop version
    (match files with
     | [] => ""
     | f :: _ => f.filePath)
    files []

/-! ## Path resolution (`dbmsScriptPath`, scripting.cpp:23-85) -/

/-- `Scripting::Context`. -/
inductive Context where
  | Root
  | Tree
  | Content
  | Preview
deriving DecidableEq, Repr

/-- The `switch (context)` of scripting.cpp:32-44. -/
def contextFolder : Context → String
  | .Tree => "tree/"
  | .Content => "content/"
  | .Preview => "preview/"
  | .Root => ""

/-- The connection facets `dbmsScriptPath` reads: self-reported name and
version, and whether the `qobject_cast<OdbcConnection*>` succeeds. -/
structure DbConn where
  name : String
  version : String
  isOdbc : Bool
deriving DecidableEq, Repr

/-- The filesystem as the resolver observes it: the application
directory, the set of existing paths, and directory listings. -/
structure Fs where
  appDirPath : String
  existing : List String
  subdirsOf : String → List String

/-- A filesystem access performed by the resolver (used to state that a
cache hit performs no scanning). -/
inductive FsOp where
  | existsCheck (p : String)
  | listDir (p : String)
deriving DecidableEq, Repr

/-- Is `pat` a contiguous sublist of `hay`? -/
def containsSub (hay pat : List Char) : Bool :=
  match hay with
  | [] => pat.isPrefixOf ([] : List Char)
  | _ :: rest => pat.isPrefixOf hay || containsSub rest pat

/-- `dbmsName.contains(d, Qt::CaseInsensitive)`: case-insensitive
substring test. -/
def qtContains (hay pat : String) : Bool :=
  containsSub (qtLower hay).data (qtLower pat).data

/-- The vendor-folder search loop (scripting.cpp:64-73): first listed
subdirectory contained in the DBMS name wins; `""` when none matches. -/
def findVendorDir (dbmsName : String) : List String → String
  | [] => ""
  | d :: ds => if qtContains dbmsName d then d ++ "/" else findVendorDir dbmsName ds

/-- `_dbms_paths` lookup. -/
def lookupCache (cache : List (String × String)) (k : String) : Option String :=
  (cache.find? (fun p => p.1 == k)).map (fun p => p.2)

/-- The cache-miss path of `dbmsScriptPath` (scripting.cpp:50-82):
locate the vendor-level directory (context-independent, the value that
gets memoized) for an open connection, recording the filesystem
accesses performed.  `ctxF` is the context suffix used for the final
existence check. -/
def resolveVendorPath (fs : Fs) (c : DbConn) (ctxF : String) :
    Except String (String × List FsOp) :=
  let startPath :=
    fs.appDirPath ++ "/scripts/" ++ (if c.isOdbc then "odbc/" else "")
  if fs.existing.contains startPath = false then
    .error ("directory " ++ startPath ++ " does not exist")
  else
    let subdirs := fs.subdirsOf startPath
    if c.name = "" then .error "unable to get dbms name"
    else
      let endPath := findVendorDir c.name subdirs
      let vendorPath :=
        if endPath = "" ∧ c.isOdbc then startPath ++ "default/"
        else startPath ++ endPath
      if fs.existing.contains (vendorPath ++ ctxF) = false then
        .error ("directory " ++ vendorPath ++ ctxF ++ " is not available")
      else
        .ok (vendorPath,
          [.existsCheck startPath, .listDir startPath,
           .existsCheck (vendorPath ++ ctxF)])

/-- `dbmsScriptPath` (scripting.cpp:23-85).  Besides the resulting path
it returns the cache after the call and the list of filesystem accesses
performed, in order.  `con->open()` is modelled as a no-op (it is
idempotent and its failure modes are outside this function). -/
def dbmsScriptPath (fs : Fs) (cache : List (String × String))
    (con : Option DbConn) (context : Context) :
    Except String (String × List (String × String) × List FsOp) :=
  match con with
  | none => .error "db connection unavailable"
  | some c =>
    let dbmsID := c.name ++ c.version
    let ctxF := contextFolder context
    match lookupCache cache dbmsID with
    | some base => .ok (base ++ ctxF, cache, [])
    | none =>
      match resolveVendorPath fs c ctxF with
      | .error e => .error e
      | .ok (vendorPath, ops) =>
        .ok (vendorPath ++ ctxF, (dbmsID, vendorPath) :: cache, ops)

/-! ## The dispatcher (`execute`, scripting.cpp:192-294)

`execute` is modelled against an already-resolved script bunch (path
resolution and refresh are modelled separately above).  The sandbox's
behaviour on the expanded text is a parameter: the sequence of
`appendTable` / `appendScript` / `appendHtml` calls the evaluated script
makes through the bound `__env` object, and an optional
`(lineNumber, toString)` error.  On an evaluation error the C++ throws;
the local `unique_ptr` then destroys the conductor during unwinding and
its destructor `clear()`s it, deleting every owned table. -/

/-- `getScript` (scripting.cpp:183-190) against a loaded bunch: absent
object types yield `none`, not an error. -/
def getScript (bunch : List (String × Script)) (objectType : String) :
    Option Script :=
  (bunch.find? (fun p => p.1 == objectType)).map (fun p => p.2)

/-- An externally observable invocation by `execute`: submitting the
query to the connection, or evaluating text in the QJS sandbox. -/
inductive Event where
  | connExec (q : String)
  | sandboxEval (q : String)
deriving DecidableEq, Repr

/-- What evaluating an embedded script does: conductor calls made before
finishing, and the error (line number, message) if evaluation failed. -/
structure SandboxOutcome where
  ops : List ConductorOp
  error : Option (Int × String)
deriving DecidableEq, Repr

/-- The collaborators of one `execute` call. -/
structure ExecEnv where
  bunch : List (String × Script)
  objectType : String
  /-- `connection->execute(query)` followed by reading `_resultsets`. -/
  runQuery : String → List DataTable
  /-- `QJSEngine::evaluate` on the expanded text. -/
  evalScript : String → SandboxOutcome
  /-- `envCallback(...).toString()`. -/
  resolver : String → String

instance {ε α : Type} [DecidableEq ε] [DecidableEq α] :
    DecidableEq (Except ε α) := fun a b =>
  match a, b with
  | .ok x, .ok y =>
    if h : x = y then isTrue (by rw [h]) else isFalse (by simp [h])
  | .error x, .error y =>
    if h : x = y then isTrue (by rw [h]) else isFalse (by simp [h])
  | .ok _, .error _ => isFalse (by simp)
  | .error _, .ok _ => isFalse (by simp)

/-- Observable outcome of `execute`: what the caller receives (a
conductor, an absent result, or a thrown error string), the external
invocations performed, and — when the conductor never reached the
caller — the contents it held when the `unique_ptr` destroyed it. -/
structure ExecOutcome where
  result : Except String (Option CppConductor)
  events : List Event
  destroyed : Option CppConductor
deriving DecidableEq, Repr

/-- `execute` (scripting.cpp:192-294). -/
def execute (env : ExecEnv) : ExecOutcome :=
  match getScript env.bunch env.objectType with
  | none => ⟨.ok none, [], some emptyConductor⟩
  | some s =>
    let query := expandMacros s.body env.resolver
    match s.type with
    | .SQL =>
      ⟨.ok (some (classifyAll emptyConductor (env.runQuery query))),
       [.connExec query], none⟩
    | .QS =>
      let outcome := env.evalScript query
      let built := runOps emptyConductor outcome.ops
      match outcome.error with
      | some e =>
        ⟨.error ("error at line " ++ toString e.1 ++ ": " ++ e.2),
         [.sandboxEval query], some built⟩
      | none => ⟨.ok (some built), [.sandboxEval query], none⟩

/-! ## Classification lemmas -/

lemma classifyOne_spec (env : CppConductor) (t : DataTable) :
    classifyOne env t =
      ⟨env.resultsets ++ (if tableKind t then [t] else []),
       env.scripts ++ (if scriptClassified t then [cell00 t] else []),
       env.html ++ (if htmlClassified t then [cell00 t] else [])⟩ := by
  by_cases h1 : t.rowCount = 1 ∧ t.columnCount = 1
  · by_cases h2 : colName0 t = "script"
    · have hs : scriptClassified t = true := decide_eq_true ⟨h1.1, h1.2, h2⟩
      have hh : htmlClassified t = false := decide_eq_false (by
        rintro ⟨-, -, hx⟩
        rw [h2] at hx
        exact absurd hx (by decide))
      have htk : tableKind t = false := decide_eq_false (by
        intro hx
        exact hx ⟨h1.1, h1.2, Or.inl h2⟩)
      simp [classifyOne, applyOp, h1, h2, hs, hh, htk]
    · by_cases h3 : colName0 t = "html"
      · have hs : scriptClassified t = false := decide_eq_false (by
          rintro ⟨-, -, hx⟩
          exact h2 hx)
        have hh : htmlClassified t = true := decide_eq_true ⟨h1.1, h1.2, h3⟩
        have htk : tableKind t = false := decide_eq_false (by
          intro hx
          exact hx ⟨h1.1, h1.2, Or.inr h3⟩)
        simp [classifyOne, applyOp, h1, h2, h3, hs, hh, htk]
      · have hs : scriptClassified t = false := decide_eq_false (by
          rintro ⟨-, -, hx⟩
          exact h2 hx)
        have hh : htmlClassified t = false := decide_eq_false (by
          rintro ⟨-, -, hx⟩
          exact h3 hx)
        have htk : tableKind t = true := decide_eq_true (by
          rintro ⟨-, -, hx | hx⟩
          exacts [h2 hx, h3 hx])
        simp [classifyOne, applyOp, h1, h2, h3, hs, hh, htk]
  · have hs : scriptClassified t = false := decide_eq_false (by
      rintro ⟨ha, hb, -⟩
      exact h1 ⟨ha, hb⟩)
    have hh : htmlClassified t = false := decide_eq_false (by
      rintro ⟨ha, hb, -⟩
      exact h1 ⟨ha, hb⟩)
    have htk : tableKind t = true := decide_eq_true (by
      rintro ⟨ha, hb, -⟩
      exact h1 ⟨ha, hb⟩)
    simp [classifyOne, applyOp, h1, hs, hh, htk]

lemma foldl_classify (l : List DataTable) (env : CppConductor) :
    l.foldl classifyOne env =
      ⟨env.resultsets ++ l.filter tableKind,
       env.scripts ++ (l.filter scriptClassified).map cell00,
       env.html ++ (l.filter htmlClassified).map cell00⟩ := by
  induction l generalizing env with
  | nil => simp
  | cons t rest ih =>
    rw [List.foldl_cons, classifyOne_spec, ih]
    simp only [CppConductor.mk.injEq]
    refine ⟨?_, ?_, ?_⟩
    · by_cases htk : tableKind t <;>
        simp [List.filter_cons, htk, List.append_assoc]
    · by_cases hs : scriptClassified t <;>
        simp [List.filter_cons, hs, List.append_assoc]
    · by_cases hh : htmlClassified t <;>
        simp [List.filter_cons, hh, List.append_assoc]

lemma classifyAll_spec (env : CppConductor) (ts : List DataTable) :
    classifyAll env ts =
      ⟨env.resultsets ++ ts.reverse.filter tableKind,
       env.scripts ++ (ts.reverse.filter scriptClassified).map cell00,
       env.html ++ (ts.reverse.filter htmlClassified).map cell00⟩ :=
  foldl_classify ts.reverse env

/-- C2: for every result set produced by a SQL-kind execution, a 1x1
result named `script` goes to the conductor's sub-script sequence and
never to the tables; a 1x1 result named `html` goes to the HTML
sequence and never to the tables; a 1x1 result with any other column
name becomes a conductor-owned table; and every non-1x1 result becomes
a conductor-owned table regardless of column names. -/
theorem sql_result_classification (ts : List DataTable) (t : DataTable)
    (ht : t ∈ ts) :
    ((t.rowCount = 1 ∧ t.columnCount = 1 ∧ colName0 t = "script") →
      cell00 t ∈ (classifyAll emptyConductor ts).scripts ∧
      t ∉ (classifyAll emptyConductor ts).resultsets) ∧
    ((t.rowCount = 1 ∧ t.columnCount = 1 ∧ colName0 t = "html") →
      cell00 t ∈ (classifyAll emptyConductor ts).html ∧
      t ∉ (classifyAll emptyConductor ts).resultsets) ∧
    ((t.rowCount = 1 ∧ t.columnCount = 1 ∧ colName0 t ≠ "script" ∧
        colName0 t ≠ "html") →
      t ∈ (classifyAll emptyConductor ts).resultsets) ∧
    (¬(t.rowCount = 1 ∧ t.columnCount = 1) →
      t ∈ (classifyAll emptyConductor ts).resultsets) := by
  rw [classifyAll_spec]
  simp only [emptyConductor, List.nil_append]
  refine ⟨fun h => ⟨?_, ?_⟩, fun h => ⟨?_, ?_⟩, fun h => ?_, fun h => ?_⟩
  · exact List.mem_map_of_mem _ (List.mem_filter.mpr
      ⟨List.mem_reverse.mpr ht, decide_eq_true ⟨h.1, h.2.1, h.2.2⟩⟩)
  · intro hmem
    exact of_decide_eq_true (List.mem_filter.mp hmem).2
      ⟨h.1, h.2.1, Or.inl h.2.2⟩
  · exact List.mem_map_of_mem _ (List.mem_filter.mpr
      ⟨List.mem_reverse.mpr ht, decide_eq_true ⟨h.1, h.2.1, h.2.2⟩⟩)
  · intro hmem
    exact of_decide_eq_true (List.mem_filter.mp hmem).2
      ⟨h.1, h.2.1, Or.inr h.2.2⟩
  · exact List.mem_filter.mpr ⟨List.mem_reverse.mpr ht,
      decide_eq_true (by
        rintro ⟨-, -, hx | hx⟩
        exacts [h.2.2.1 hx, h.2.2.2 hx])⟩
  · exact List.mem_filter.mpr ⟨List.mem_reverse.mpr ht,
      decide_eq_true (by
        rintro ⟨ha, hb, -⟩
        exact h ⟨ha, hb⟩)⟩

/-- Concrete tables exercising the four classification branches. -/
def tScriptW : DataTable := ⟨1, 1, ["script"], [["s1"]]⟩

def tHtmlW : DataTable := ⟨1, 1, ["html"], [["h1"]]⟩

def tOtherW : DataTable := ⟨1, 1, ["other"], [["v1"]]⟩

def tBigW : DataTable := ⟨5, 3, ["html", "b", "c"], [["x", "y", "z"]]⟩

def tsW : List DataTable := [tScriptW, tHtmlW, tOtherW, tBigW]

/-- Witness for `sql_result_classification` at a concrete result-set
list containing all four shapes. -/
theorem sql_result_classification_witness :
    (cell00 tScriptW ∈ (classifyAll emptyConductor tsW).scripts ∧
      tScriptW ∉ (classifyAll emptyConductor tsW).resultsets) ∧
    (cell00 tHtmlW ∈ (classifyAll emptyConductor tsW).html ∧
      tHtmlW ∉ (classifyAll emptyConductor tsW).resultsets) ∧
    tOtherW ∈ (classifyAll emptyConductor tsW).resultsets ∧
    tBigW ∈ (classifyAll emptyConductor tsW).resultsets :=
  ⟨(sql_result_classification tsW tScriptW (by decide)).1 (by decide),
   (sql_result_classification tsW tHtmlW (by decide)).2.1 (by decide),
   (sql_result_classification tsW tOtherW (by decide)).2.2.1 (by decide),
   (sql_result_classification tsW tBigW (by decide)).2.2.2 (by decide)⟩

/-- C10: the loop iterates `_resultsets` from the last element down to
the first, so the conductor's table, sub-script and HTML sequences are
the reverse of the production order of the result sets classified into
each of them. -/
theorem classification_reverses_order (ts : List DataTable) :
    (classifyAll emptyConductor ts).resultsets =
      (ts.filter tableKind).reverse ∧
    (classifyAll emptyConductor ts).scripts =
      ((ts.filter scriptClassified).map cell00).reverse ∧
    (classifyAll emptyConductor ts).html =
      ((ts.filter htmlClassified).map cell00).reverse := by
  rw [classifyAll_spec]
  simp [emptyConductor, List.filter_reverse, List.map_reverse]

/-! ## Macro expansion lemmas -/

lemma foldl_expandStep_calls (resolver : String → String) (l : List String) :
    ∀ q calls, (l.foldl (expandStep resolver) (q, calls)).2 = calls ++ l := by
  induction l with
  | nil => simp
  | cons m rest ih =>
    intro q calls
    rw [List.foldl_cons]
    simp only [expandStep]
    rw [ih]
    simp

lemma mem_foldl_addDistinct (l : List String) :
    ∀ acc x, x ∈ l.foldl addDistinct acc ↔ (x ∈ acc ∨ x ∈ l) := by
  induction l with
  | nil => simp
  | cons m rest ih =>
    intro acc x
    rw [List.foldl_cons, ih]
    unfold addDistinct
    by_cases hm : m ∈ acc
    · simp only [if_pos hm, List.mem_cons]
      constructor
      · tauto
      · rintro (h | h | h)
        · exact Or.inl h
        · subst h
          exact Or.inl hm
        · exact Or.inr h
    · simp only [if_neg hm, List.mem_append, List.mem_singleton, List.mem_cons]
      tauto

lemma nodup_foldl_addDistinct (l : List String) :
    ∀ acc, acc.Nodup → (l.foldl addDistinct acc).Nodup := by
  induction l with
  | nil =>
    intro acc h
    simpa using h
  | cons m rest ih =>
    intro acc h
    rw [List.foldl_cons]
    apply ih
    unfold addDistinct
    by_cases hm : m ∈ acc
    · simpa [hm] using h
    · simp [if_neg hm, List.nodup_append, h, hm]

/-- C4: macro expansion collects the distinct `$word.word$` names in
first-occurrence order, invokes the resolver exactly once per distinct
name even when a macro occurs several times, replaces every occurrence
of each macro token, and substitutes the literal `NULL` at occurrences
whose resolved value is empty (otherwise the value's string form). -/
theorem expandMacros_distinct_once_null :
    (∀ s resolver, (expandMacrosWithCalls s resolver).2 = collectMacros s) ∧
    (∀ s, (collectMacros s).Nodup) ∧
    (∀ s m, m ∈ collectMacros s ↔ m ∈ scanMacros s.data) ∧
    collectMacros "select * from t where x=$a.b$ and y=$a.b$" = ["a.b"] ∧
    collectMacros "$b.c$+$a.b$+$b.c$" = ["b.c", "a.b"] ∧
    expandMacros "select * from t where x=$a.b$ and y=$a.b$" (fun _ => "") =
      "select * from t where x=NULL and y=NULL" ∧
    expandMacros "select * from t where x=$a.b$ and y=$a.b$" (fun _ => "42") =
      "select * from t where x=42 and y=42" := by
  refine ⟨fun s r => ?_, fun s => ?_, fun s m => ?_,
    by decide, by decide, by decide, by decide⟩
  · unfold expandMacrosWithCalls
    rw [foldl_expandStep_calls]
    simp
  · exact nodup_foldl_addDistinct _ _ List.nodup_nil
  · unfold collectMacros
    rw [mem_foldl_addDistinct]
    simp

/-! ## Version selection lemmas -/

/-- Counterexample to C3: the marker regex is a pure lookahead, so each
match is zero-width and `capturedEnd()` is the marker's *start*; every
segment therefore begins with its own marker comment.  For markers
`V100+`,`V200+`,`V300+` with contents `A`,`B`,`C`, selecting 250 yields
`"/* V200+ */B"`, not `B`, and selecting 300 yields `"/* V300+ */C"`,
not `C`. -/
theorem segment_excludes_marker_cex :
    versionSpecificPart "/* V100+ */A/* V200+ */B/* V300+ */C" 250 ≠ "B" ∧
    versionSpecificPart "/* V100+ */A/* V200+ */B/* V300+ */C" 300 ≠ "C" := by
  decide

/-- C3 amended: each segment spans from the *start* of its version
marker (the zero-width lookahead match position) to the start of the
next marker (or end of text), so the marker comment itself is part of
the selected segment; for markers `V100+`,`V200+`,`V300+` with contents
`A`,`B`,`C`, selecting 250 yields `"/* V200+ */B"` and selecting 300
yields `"/* V300+ */C"`. -/
theorem segment_includes_marker :
    versionSpecificPart "/* V100+ */A/* V200+ */B/* V300+ */C" 250 =
      "/* V200+ */B" ∧
    versionSpecificPart "/* V100+ */A/* V200+ */B/* V300+ */C" 300 =
      "/* V300+ */C" ∧
    versionSpecificPart "/* V100+ */A/* V200+ */B/* V300+ */C" 100 =
      "/* V100+ */A" := by
  decide

lemma mem_insertPart (m : List (Nat × String)) (k : Nat) (v : String) :
    ∀ kv ∈ insertPart m k v, kv ∈ m ∨ kv = (k, v) := by
  induction m with
  | nil =>
    intro kv h
    simp [insertPart] at h
    simp [h]
  | cons a rest ih =>
    intro kv h
    unfold insertPart at h
    by_cases h1 : k < a.1
    · simp only [if_pos h1, List.mem_cons] at h
      rcases h with h | h | h
      · exact Or.inr h
      · exact Or.inl (by simp [h])
      · exact Or.inl (List.mem_cons_of_mem _ h)
    · by_cases h2 : k = a.1
      · simp only [if_neg h1, if_pos h2, List.mem_cons] at h
        rcases h with h | h
        · exact Or.inr h
        · exact Or.inl (List.mem_cons_of_mem _ h)
      · simp only [if_neg h1, if_neg h2, List.mem_cons] at h
        rcases h with h | h
        · exact Or.inl (by simp [h])
        · rcases ih kv h with h' | h'
          · exact Or.inl (List.mem_cons_of_mem _ h')
          · exact Or.inr h'

lemma mem_buildParts (segs : List (Nat × String)) :
    ∀ acc kv, kv ∈ segs.foldl (fun m p => insertPart m p.1 p.2) acc →
      kv ∈ acc ∨ ∃ p ∈ segs, kv.1 = p.1 := by
  induction segs with
  | nil =>
    intro acc kv h
    exact Or.inl (by simpa using h)
  | cons a rest ih =>
    intro acc kv h
    rw [List.foldl_cons] at h
    rcases ih _ kv h with h' | h'
    · rcases mem_insertPart acc a.1 a.2 kv h' with h'' | h''
      · exact Or.inl h''
      · exact Or.inr ⟨a, List.mem_cons_self a rest, by simp [h'']⟩
    · rcases h' with ⟨p, hp, hk⟩
      exact Or.inr ⟨p, List.mem_cons_of_mem _ hp, hk⟩

lemma insertPart_sorted (m : List (Nat × String)) (k : Nat) (v : String)
    (h : m.Pairwise (fun a b => a.1 < b.1)) :
    (insertPart m k v).Pairwise (fun a b => a.1 < b.1) := by
  induction m with
  | nil => simp [insertPart]
  | cons a rest ih =>
    rw [List.pairwise_cons] at h
    unfold insertPart
    by_cases h1 : k < a.1
    · rw [if_pos h1, List.pairwise_cons]
      refine ⟨?_, List.pairwise_cons.mpr h⟩
      intro b hb
      rcases List.mem_cons.mp hb with hb | hb
      · simp [hb, h1]
      · exact lt_trans h1 (h.1 b hb)
    · by_cases h2 : k = a.1
      · rw [if_neg h1, if_pos h2, List.pairwise_cons]
        exact ⟨fun b hb => h2 ▸ h.1 b hb, h.2⟩
      · rw [if_neg h1, if_neg h2]
        rw [List.pairwise_cons]
        refine ⟨?_, ih h.2⟩
        intro b hb
        rcases mem_insertPart rest k v b hb with hb' | hb'
        · exact h.1 b hb'
        · have : a.1 < k := by omega
          simp [hb', this]

lemma buildParts_sorted (segs : List (Nat × String)) :
    (buildParts segs).Pairwise (fun a b => a.1 < b.1) := by
  unfold buildParts
  suffices h : ∀ acc, acc.Pairwise (fun a b => a.1 < b.1) →
      (segs.foldl (fun m p => insertPart m p.1 p.2) acc).Pairwise
        (fun a b => a.1 < b.1) from h [] (by simp)
  induction segs with
  | nil =>
    intro acc h
    simpa using h
  | cons a rest ih =>
    intro acc h
    rw [List.foldl_cons]
    exact ih _ (insertPart_sorted acc a.1 a.2 h)

/-- On a strictly descending list, `find?` with predicate `key ≤ v`
returns the maximal qualifying entry. -/
lemma find_desc_max (version : Int) :
    ∀ (l : List (Nat × String)), l.Pairwise (fun a b => b.1 < a.1) →
      ∀ k v, (k, v) ∈ l → (k : Int) ≤ version →
      (∀ kv ∈ l, (kv.1 : Int) ≤ version → kv.1 ≤ k) →
      l.find? (fun kv => decide ((kv.1 : Int) ≤ version)) = some (k, v) := by
  intro l
  induction l with
  | nil =>
    intro _ k v h
    simp at h
  | cons a rest ih =>
    intro hp k v hmem hk hmax
    rw [List.pairwise_cons] at hp
    rcases List.mem_cons.mp hmem with h | h
    · subst h
      rw [List.find?_cons_of_pos _ (by simpa using hk)]
    · have hak : k < a.1 := hp.1 (k, v) h
      have hav : ¬((a.1 : Int) ≤ version) := by
        intro hle
        have := hmax a (List.mem_cons_self a rest) hle
        omega
      rw [List.find?_cons_of_neg]
      · exact ih hp.2 k v h hk fun kv hkv hle =>
          hmax kv (List.mem_cons_of_mem _ hkv) hle
      · simpa using hav

/-- C6: among segments whose captured version key is ≤ the requested
version, selection returns the one with the highest key; when the
requested version is below every marker's key — in particular for the
root-context no-gating sentinel `-1` — it returns the empty string
rather than raising an error. -/
theorem selectHighest_picks_max_qualifying (segs : List (Nat × String))
    (version : Int) :
    ((∀ kv ∈ segs, version < (kv.1 : Int)) →
      selectHighest (buildParts segs) version = "") ∧
    (∀ k v, (k, v) ∈ buildParts segs → (k : Int) ≤ version →
      (∀ kv ∈ buildParts segs, (kv.1 : Int) ≤ version → kv.1 ≤ k) →
      selectHighest (buildParts segs) version = v) ∧
    versionSpecificPart "/* V100+ */A/* V200+ */B/* V300+ */C" 50 = "" ∧
    versionSpecificPart "/* V100+ */A/* V200+ */B/* V300+ */C" (-1) = "" := by
  refine ⟨fun h => ?_, fun k v hmem hk hmax => ?_, by decide, by decide⟩
  · unfold selectHighest
    rw [List.find?_eq_none.mpr]
    intro kv hkv
    rw [List.mem_reverse] at hkv
    rcases mem_buildParts segs [] kv (by simpa [buildParts] using hkv) with h' | h'
    · simp at h'
    · rcases h' with ⟨p, hp, hkp⟩
      have := h p hp
      simp only [decide_eq_true_eq]
      omega
  · unfold selectHighest
    rw [find_desc_max version (buildParts segs).reverse
      (by
        rw [List.pairwise_reverse]
        exact buildParts_sorted segs)
      k v (List.mem_reverse.mpr hmem) hk
      (fun kv hkv hle => hmax kv (List.mem_reverse.mp hkv) hle)]

/-! ## Refresh lemmas -/

lemma refreshLoop_append_failure (version : Int) (fp : String)
    (f : ScriptFile)
    (hf : qtLower f.suffix = "sql" ∨ qtLower f.suffix = "qs")
    (hc : f.content = none) :
    ∀ (pre : List ScriptFile) (post : List ScriptFile)
      (b0 bunchPre : List (String × Script)),
      refreshLoop version fp pre b0 = .ok bunchPre →
      refreshLoop version fp (pre ++ f :: post) b0 =
        .failure bunchPre ("can't open " ++ fp) := by
  intro pre
  induction pre with
  | nil =>
    intro post b0 bunchPre h
    simp only [refreshLoop] at h
    injection h with h'
    subst h'
    simp only [List.nil_append]
    unfold refreshLoop
    rw [if_neg (by tauto), hc]
  | cons g pre ih =>
    intro post b0 bunchPre h
    simp only [List.cons_append]
    unfold refreshLoop at h ⊢
    by_cases hg : qtLower g.suffix ≠ "sql" ∧ qtLower g.suffix ≠ "qs"
    · rw [if_pos hg] at h ⊢
      exact ih post b0 bunchPre h
    · rw [if_neg hg] at h ⊢
      cases hgc : g.content with
      | none =>
        rw [hgc] at h
        simp at h
      | some text =>
        rw [hgc] at h
        exact ih post _ bunchPre h

/-- Counterexample to C5: after a refresh aborted by an unreadable
file, the bunch for that directory still holds the scripts inserted
before the failure — the partial set is kept in the cache, not rolled
back.  (The thrown message also names the first listed file,
`files.at(0)`, rather than the failing one.) -/
theorem refresh_partial_bunch_cex :
    refresh [⟨"good", "sql", "/p/good.sql", some "select 1"⟩,
             ⟨"bad", "sql", "/p/bad.sql", none⟩] 90001 =
      .failure [("good", ⟨"select 1", .SQL⟩)] "can't open /p/good.sql" ∧
    ([("good", (⟨"select 1", .SQL⟩ : Script))] : List (String × Script)) ≠
      [] := by
  decide

/-- C5 amended: if a `.sql`/`.qs` file is unreadable during refresh,
refresh raises the fatal load failure and aborts — but the
partially-populated bunch for that directory is *not* rolled back: the
scripts loaded from the files preceding the failure remain in the
cached bunch at the moment of the throw. -/
theorem refresh_failure_keeps_partial_bunch (pre post : List ScriptFile)
    (f : ScriptFile) (version : Int) (bunchPre : List (String × Script))
    (hf : qtLower f.suffix = "sql" ∨ qtLower f.suffix = "qs")
    (hc : f.content = none)
    (hpre : refreshLoop version (pre.headD f).filePath pre [] = .ok bunchPre) :
    refresh (pre ++ f :: post) version =
      .failure bunchPre ("can't open " ++ (pre.headD f).filePath) := by
  cases pre with
  | nil =>
    unfold refresh
    simp only [List.nil_append, List.headD] at hpre ⊢
    exact refreshLoop_append_failure version f.filePath f hf hc [] post []
      bunchPre hpre
  | cons g pre' =>
    unfold refresh
    simp only [List.cons_append, List.headD] at hpre ⊢
    exact refreshLoop_append_failure version g.filePath f hf hc (g :: pre')
      post [] bunchPre hpre

/-- Witness for `refresh_failure_keeps_partial_bunch`: a readable
`.sql` file, a skipped `.txt` file and an unreadable `.qs` file. -/
theorem refresh_failure_keeps_partial_bunch_witness :
    refresh [⟨"good", "sql", "/p/good.sql", some "select 1"⟩,
             ⟨"note", "txt", "/p/note.txt", none⟩,
             ⟨"bad", "qs", "/p/bad.qs", none⟩] 1 =
      .failure [("good", ⟨"select 1", .SQL⟩)] "can't open /p/good.sql" :=
  refresh_failure_keeps_partial_bunch
    [⟨"good", "sql", "/p/good.sql", some "select 1"⟩,
     ⟨"note", "txt", "/p/note.txt", none⟩]
    [] ⟨"bad", "qs", "/p/bad.qs", none⟩ 1
    [("good", ⟨"select 1", .SQL⟩)]
    (by decide) (by decide) (by decide)

/-- Witness for `selectHighest_picks_max_qualifying` at the segment
keys 100/200/300. -/
theorem selectHighest_picks_max_qualifying_witness :
    selectHighest (buildParts [(100, "A"), (200, "B"), (300, "C")]) 50 = "" ∧
    selectHighest (buildParts [(100, "A"), (200, "B"), (300, "C")]) 250 = "B" :=
  ⟨(selectHighest_picks_max_qualifying [(100, "A"), (200, "B"), (300, "C")]
      50).1 (by decide),
   (selectHighest_picks_max_qualifying [(100, "A"), (200, "B"), (300, "C")]
      250).2.1 200 "B" (by decide) (by decide) (by decide)⟩

/-! ## Path resolution lemmas -/

lemma findVendorDir_eq_find (name : String) (dirs : List String) :
    findVendorDir name dirs =
      ((dirs.find? (fun d => qtContains name d)).map (fun d => d ++ "/")).getD
        "" := by
  induction dirs with
  | nil => simp [findVendorDir]
  | cons d ds ih =>
    unfold findVendorDir
    by_cases hd : qtContains name d = true
    · rw [if_pos hd, List.find?_cons_of_pos _ hd]
      simp
    · rw [if_neg (by simpa using hd), List.find?_cons_of_neg _ (by simpa using hd), ih]

lemma findVendorDir_empty_iff (name : String) (dirs : List String) :
    findVendorDir name dirs = "" ↔ ∀ d ∈ dirs, qtContains name d = false := by
  induction dirs with
  | nil => simp [findVendorDir]
  | cons d ds ih =>
    unfold findVendorDir
    by_cases hd : qtContains name d = true
    · rw [if_pos hd]
      constructor
      · intro h
        have := congrArg String.data h
        simp [String.data_append] at this
      · intro h
        rw [h d (List.mem_cons_self d ds)] at hd
        cases hd
    · rw [if_neg (by simpa using hd), ih]
      constructor
      · intro h e he
        rcases List.mem_cons.mp he with rfl | he
        · simpa using hd
        · exact h e he
      · intro h e he
        exact h e (List.mem_cons_of_mem _ he)

/-- C7: path resolution is idempotent through the `_dbms_paths` memo:
after one successful resolve, a second resolve with the same open
connection, context and filesystem returns the identical path string,
leaves the cache unchanged, and performs no filesystem access at all
(it is served from the identity-keyed cache with the context suffix
appended). -/
theorem dbmsScriptPath_idempotent_cached (fs : Fs)
    (cache : List (String × String)) (con : DbConn) (context : Context)
    (p : String) (cache2 : List (String × String)) (ops : List FsOp)
    (h : dbmsScriptPath fs cache (some con) context = .ok (p, cache2, ops)) :
    dbmsScriptPath fs cache2 (some con) context = .ok (p, cache2, []) := by
  simp only [dbmsScriptPath] at h ⊢
  cases hl : lookupCache cache (con.name ++ con.version) with
  | some base =>
    rw [hl] at h
    simp only [Except.ok.injEq, Prod.mk.injEq] at h
    obtain ⟨hp, hcache, -⟩ := h
    subst hcache
    subst hp
    simp [hl]
  | none =>
    rw [hl] at h
    cases hr : resolveVendorPath fs con (contextFolder context) with
    | error e =>
      rw [hr] at h
      cases h
    | ok vo =>
      obtain ⟨vendorPath, vops⟩ := vo
      rw [hr] at h
      simp only [Except.ok.injEq, Prod.mk.injEq] at h
      obtain ⟨hp, hcache, -⟩ := h
      subst hp
      subst hcache
      simp [lookupCache]

/-- Concrete resolver scenario: a `postgresql` vendor folder matched by
a PostgreSQL connection. -/
def fsPg : Fs :=
  ⟨"/app", ["/app/scripts/", "/app/scripts/postgresql/tree/"],
   fun p => if p = "/app/scripts/" then ["postgresql"] else []⟩

def conPg : DbConn := ⟨"PostgreSQL 14.3", "140003", false⟩

/-- Witness for `dbmsScriptPath_idempotent_cached`: the second call
after a successful first resolve is answered from the cache. -/
theorem dbmsScriptPath_idempotent_cached_witness :
    dbmsScriptPath fsPg
      [("PostgreSQL 14.3140003", "/app/scripts/postgresql/")] (some conPg)
      Context.Tree =
      .ok ("/app/scripts/postgresql/tree/",
        [("PostgreSQL 14.3140003", "/app/scripts/postgresql/")], []) :=
  dbmsScriptPath_idempotent_cached fsPg [] conPg Context.Tree
    "/app/scripts/postgresql/tree/"
    [("PostgreSQL 14.3140003", "/app/scripts/postgresql/")]
    [.existsCheck "/app/scripts/", .listDir "/app/scripts/",
     .existsCheck "/app/scripts/postgresql/tree/"]
    (by decide)

/-- C8: a subdirectory is chosen iff the connection's self-reported
DBMS name contains the subdirectory name as a case-insensitive
substring, the first match in directory-listing order winning; when no
subdirectory matches, an ODBC-driven connection falls back to the fixed
`default/` subdirectory and a non-ODBC connection falls back to the
scripts root with no vendor segment. -/
theorem vendor_matching_and_fallbacks :
    (∀ (name : String) (dirs : List String),
      findVendorDir name dirs =
        ((dirs.find? (fun d => qtContains name d)).map
          (fun d => d ++ "/")).getD "") ∧
    (∀ (name : String) (dirs : List String),
      findVendorDir name dirs = "" ↔ ∀ d ∈ dirs, qtContains name d = false) ∧
    qtContains "PostgreSQL 14.3" "postgresql" = true ∧
    (∀ (fs : Fs) (cache : List (String × String)) (con : DbConn)
        (context : Context),
      con.isOdbc = true →
      lookupCache cache (con.name ++ con.version) = none →
      ¬con.name = "" →
      (∀ d ∈ fs.subdirsOf (fs.appDirPath ++ "/scripts/" ++ "odbc/"),
        qtContains con.name d = false) →
      fs.existing.contains (fs.appDirPath ++ "/scripts/" ++ "odbc/") = true →
      fs.existing.contains (fs.appDirPath ++ "/scripts/" ++ "odbc/" ++
        "default/" ++ contextFolder context) = true →
      dbmsScriptPath fs cache (some con) context =
        .ok (fs.appDirPath ++ "/scripts/" ++ "odbc/" ++ "default/" ++
            contextFolder context,
          (con.name ++ con.version,
            fs.appDirPath ++ "/scripts/" ++ "odbc/" ++ "default/") :: cache,
          [.existsCheck (fs.appDirPath ++ "/scripts/" ++ "odbc/"),
           .listDir (fs.appDirPath ++ "/scripts/" ++ "odbc/"),
           .existsCheck (fs.appDirPath ++ "/scripts/" ++ "odbc/" ++
             "default/" ++ contextFolder context)])) ∧
    (∀ (fs : Fs) (cache : List (String × String)) (con : DbConn)
        (context : Context),
      con.isOdbc = false →
      lookupCache cache (con.name ++ con.version) = none →
      ¬con.name = "" →
      (∀ d ∈ fs.subdirsOf (fs.appDirPath ++ "/scripts/"),
        qtContains con.name d = false) →
      fs.existing.contains (fs.appDirPath ++ "/scripts/") = true →
      fs.existing.contains
        (fs.appDirPath ++ "/scripts/" ++ contextFolder context) = true →
      dbmsScriptPath fs cache (some con) context =
        .ok (fs.appDirPath ++ "/scripts/" ++ contextFolder context,
          (con.name ++ con.version, fs.appDirPath ++ "/scripts/") :: cache,
          [.existsCheck (fs.appDirPath ++ "/scripts/"),
           .listDir (fs.appDirPath ++ "/scripts/"),
           .existsCheck
             (fs.appDirPath ++ "/scripts/" ++ contextFolder context)])) := by
  refine ⟨findVendorDir_eq_find, findVendorDir_empty_iff, by decide, ?_, ?_⟩
  · intro fs cache con context hodbc hmiss hname hnomatch hroot hfinal
    have hvend : findVendorDir con.name
        (fs.subdirsOf (fs.appDirPath ++ "/scripts/" ++ "odbc/")) = "" :=
      (findVendorDir_empty_iff _ _).mpr hnomatch
    have hroot2 : fs.appDirPath ++ "/scripts/" ++ "odbc/" ∈ fs.existing := by
      simpa using hroot
    have hfinal2 : fs.appDirPath ++ "/scripts/" ++ "odbc/" ++ "default/" ++
        contextFolder context ∈ fs.existing := by
      simpa using hfinal
    simp only [dbmsScriptPath, hmiss]
    simp [resolveVendorPath, hodbc, hroot2, hname, hvend, hfinal2]
  · intro fs cache con context hodbc hmiss hname hnomatch hroot hfinal
    have hvend : findVendorDir con.name
        (fs.subdirsOf (fs.appDirPath ++ "/scripts/")) = "" :=
      (findVendorDir_empty_iff _ _).mpr hnomatch
    have hroot2 : fs.appDirPath ++ "/scripts/" ∈ fs.existing := by
      simpa using hroot
    have hfinal2 : fs.appDirPath ++ "/scripts/" ++ contextFolder context ∈
        fs.existing := by
      simpa using hfinal
    simp only [dbmsScriptPath, hmiss]
    simp [resolveVendorPath, hodbc, String.append_empty, hroot2, hname,
      hvend, hfinal2]

/-- Unmatched ODBC scenario for the `default/` fallback. -/
def fsOdbcW : Fs :=
  ⟨"/app", ["/app/scripts/odbc/", "/app/scripts/odbc/default/tree/"],
   fun p => if p = "/app/scripts/odbc/" then ["mysql"] else []⟩

def conOdbcW : DbConn := ⟨"StrangeDB 1.0", "10", true⟩

/-- Unmatched non-ODBC scenario for the root fallback. -/
def fsPlainW : Fs :=
  ⟨"/app", ["/app/scripts/", "/app/scripts/tree/"],
   fun p => if p = "/app/scripts/" then ["mysql"] else []⟩

def conPlainW : DbConn := ⟨"StrangeDB 1.0", "10", false⟩

/-- Witness for `vendor_matching_and_fallbacks`: the PostgreSQL match,
the ODBC `default/` fallback and the non-ODBC root fallback at
concrete inputs. -/
theorem vendor_matching_and_fallbacks_witness :
    findVendorDir "PostgreSQL 14.3" ["mysql", "postgresql"] =
      (((["mysql", "postgresql"] : List String).find?
        (fun d => qtContains "PostgreSQL 14.3" d)).map
          (fun d => d ++ "/")).getD "" ∧
    dbmsScriptPath fsOdbcW [] (some conOdbcW) Context.Tree =
      .ok ("/app/scripts/odbc/default/tree/",
        [("StrangeDB 1.010", "/app/scripts/odbc/default/")],
        [.existsCheck "/app/scripts/odbc/", .listDir "/app/scripts/odbc/",
         .existsCheck "/app/scripts/odbc/default/tree/"]) ∧
    dbmsScriptPath fsPlainW [] (some conPlainW) Context.Tree =
      .ok ("/app/scripts/tree/", [("StrangeDB 1.010", "/app/scripts/")],
        [.existsCheck "/app/scripts/", .listDir "/app/scripts/",
         .existsCheck "/app/scripts/tree/"]) :=
  ⟨vendor_matching_and_fallbacks.1 "PostgreSQL 14.3" ["mysql", "postgresql"],
   vendor_matching_and_fallbacks.2.2.2.1 fsOdbcW [] conOdbcW Context.Tree
     (by decide) (by decide) (by decide) (by decide) (by decide) (by decide),
   vendor_matching_and_fallbacks.2.2.2.2 fsPlainW [] conPlainW Context.Tree
     (by decide) (by decide) (by decide) (by decide) (by decide) (by decide)⟩

/-! ## Dispatcher theorems -/

/-- C9: for an object type with no script file in the resolved
directory, `getScript` returns an absent result (`none`, not an error),
and `execute` then returns an absent conductor without submitting
anything to the connection and without evaluating anything in the
sandbox. -/
theorem execute_absent_script_no_invocation (env : ExecEnv)
    (h : getScript env.bunch env.objectType = none) :
    execute env = ⟨.ok none, [], some emptyConductor⟩ := by
  simp [execute, h]

/-- A bunch holding only a `tables` script, queried for `indexes`. -/
def envAbsent : ExecEnv :=
  ⟨[("tables", ⟨"select 1", .SQL⟩)], "indexes",
   fun _ => [], fun _ => ⟨[], none⟩, fun _ => ""⟩

/-- Witness for `execute_absent_script_no_invocation`. -/
theorem execute_absent_script_no_invocation_witness :
    execute envAbsent = ⟨.ok none, [], some emptyConductor⟩ :=
  execute_absent_script_no_invocation envAbsent (by decide)

/-- A QS script whose evaluation appends one HTML fragment through the
bound environment object and then fails at line 3. -/
def envQsErr : ExecEnv :=
  ⟨[("t", ⟨"badscript", .QS⟩)], "t",
   fun _ => [],
   fun _ => ⟨[.appendHtml "x"], some (3, "boom")⟩,
   fun _ => ""⟩

/-- Does the caller receive a conductor from this outcome? -/
def returnsConductor (o : ExecOutcome) : Bool :=
  match o.result with
  | .ok (some _) => true
  | _ => false

/-- Counterexample to C1: when an Embedded-kind evaluation fails, the
error (with line and message) is thrown, but the caller receives *no*
conductor at all — the HTML fragment appended before the error sits in
the conductor that the local `unique_ptr` destroys during stack
unwinding (its destructor `clear()`s it, deleting every owned table),
so the partial output is not retrievable from any conductor. -/
theorem qs_error_partial_output_destroyed_cex :
    execute envQsErr =
      ⟨.error "error at line 3: boom", [.sandboxEval "badscript"],
       some ⟨[], [], ["x"]⟩⟩ ∧
    returnsConductor (execute envQsErr) = false := by
  decide

/-- C1 amended: if evaluation of an Embedded-kind script fails,
`execute` throws the error string carrying the line number and message;
the conductor is *not* returned to the caller — it is destroyed during
exception propagation while holding exactly the tables, sub-scripts and
HTML fragments appended before the error, and its destructor releases
them, so the partial output does not survive the call. -/
theorem qs_error_raises_and_destroys_conductor (env : ExecEnv) (s : Script)
    (ln : Int) (msg : String)
    (hs : getScript env.bunch env.objectType = some s)
    (ht : s.type = ScriptType.QS)
    (he : (env.evalScript (expandMacros s.body env.resolver)).error =
      some (ln, msg)) :
    execute env =
      ⟨.error ("error at line " ++ toString ln ++ ": " ++ msg),
       [.sandboxEval (expandMacros s.body env.resolver)],
       some (runOps emptyConductor
         (env.evalScript (expandMacros s.body env.resolver)).ops)⟩ := by
  obtain ⟨body, ty⟩ := s
  simp only at ht
  subst ht
  simp only at he
  simp [execute, hs, he]

/-- A QS script with a macro, appending a table and a sub-script before
failing at line 7. -/
def envQsErr2 : ExecEnv :=
  ⟨[("u", ⟨"x$q.w$y", .QS⟩)], "u",
   fun _ => [],
   fun _ => ⟨[.appendTable ⟨2, 2, ["a", "b"], [["1", "2"], ["3", "4"]]⟩,
              .appendScript "sub"], some (7, "TypeError")⟩,
   fun _ => "Z"⟩

/-- Witness for `qs_error_raises_and_destroys_conductor`. -/
theorem qs_error_raises_and_destroys_conductor_witness :
    execute envQsErr2 =
      ⟨.error "error at line 7: TypeError", [.sandboxEval "xZy"],
       some ⟨[⟨2, 2, ["a", "b"], [["1", "2"], ["3", "4"]]⟩], ["sub"], []⟩⟩ :=
  qs_error_raises_and_destroys_conductor envQsErr2 ⟨"x$q.w$y", .QS⟩ 7
    "TypeError" (by decide) rfl (by decide)

end SqtScripting
